import Mathlib

/-!
Shallow embedding of the mobile-reviews service (two storefront review
adapters and the HTTP aggregation handler) together with proofs about the
behaviour its specification describes.

External effects (axios requests, the google-play-scraper library, cheerio
selector queries, regex captures over raw HTML, clocks) are modelled as
oracle inputs: each embedded function takes the already-received response
(as an `Except` to model a rejected promise) or the already-extracted text
fields, and the glue logic working over those values is translated from the
JavaScript source. String lengths count Unicode code points, JSON numbers
are carried as integers, and dates are carried as the strings the code
stores.
-/

namespace MobileReviews

/-- Normalized review record shared by both storefront adapters. Optional
fields model JavaScript object keys that only some extraction paths set.
The rating is an `Option Int`: `none` models a NaN rating (reachable on the
App Store path when the raw rating label does not parse). The JS code stores
a number in `helpful` on the library path but a string on the scrape paths,
so the model keeps the two shapes in separate optional fields. -/
structure Review where
  id : String
  platform : String
  author : String
  rating : Option Int
  title : Option String := none
  content : String
  date : String
  version : Option String := none
  helpfulNum : Option Int := none
  helpfulText : Option String := none
  language : String
  reply : Option String := none
  replyDate : Option String := none
  deriving DecidableEq

/-- Shallow model of JavaScript parseInt in base 10: leading whitespace is
skipped, an optional sign is read, and the maximal leading run of decimal
digits gives the value; `none` models NaN (no digits at all). -/
def parseIntJS (s : String) : Option Int :=
  let cs := s.data.dropWhile (fun c => c.isWhitespace)
  let signed : Int × List Char :=
    match cs with
    | '-' :: rest => (-1, rest)
    | '+' :: rest => (1, rest)
    | _ => (1, cs)
  let digits := signed.2.takeWhile (fun c => c.isDigit)
  if digits.isEmpty then none
  else some (signed.1 * ((digits.foldl (fun n c => n * 10 + (c.toNat - 48)) 0 : Nat) : Int))

/-- Case folding modelling the /i regex flag for the characters occurring in
the fixed keyword lists of both services: ASCII and the relevant Turkish upper
case letters fold to lower case. -/
def foldCI (c : Char) : Char :=
  if c == 'Ç' then 'ç'
  else if c == 'Ğ' then 'ğ'
  else if c == 'Ö' then 'ö'
  else if c == 'Ş' then 'ş'
  else if c == 'Ü' then 'ü'
  else if c == 'İ' then 'i'
  else c.toLower

/-- JavaScript x || y for a possibly absent string x: y when x is absent or
empty (both are falsy). -/
def orElseStr (x : Option String) (y : String) : String :=
  match x with
  | some s => if s == "" then y else s
  | none => y

namespace AppStoreService

/-- One entry of the iTunes RSS feed as the service reads it: each field holds
the corresponding `label` (or `author.name.label`) when the wrapping object is
present. A missing content object and an empty content label are both falsy in
the JS guard, so both are represented by the conditions below. -/
structure FeedEntry where
  idLabel : String
  authorName : Option String := none
  imRating : Option String := none
  titleLabel : Option String := none
  contentLabel : Option String := none
  updatedLabel : Option String := none
  imVersion : Option String := none
  deriving DecidableEq

/-- Characters the Turkish-content heuristic looks for; the JS character class
literally includes the plain ASCII capital I. -/
def turkishChars : List Char :=
  ['ç', 'ğ', 'ı', 'ö', 'ş', 'ü', 'Ç', 'Ğ', 'I', 'İ', 'Ö', 'Ş', 'Ü']

/-- Common Turkish words the heuristic looks for with word boundaries. -/
def turkishWords : List String :=
  ["ve", "bir", "bu", "için", "ile", "den", "var", "yok", "çok", "iyi", "kötü",
   "güzel", "uygulama", "oyun"]

/-- JS regex word character class backslash-w: ASCII letters, digits and the
underscore. -/
def isWordCharJS (c : Char) : Bool :=
  ('a' ≤ c && c ≤ 'z') || ('A' ≤ c && c ≤ 'Z') || c.isDigit || c == '_'

/-- Match the word w against the beginning of t case insensitively; on success
return the last matched text character together with the remainder of t. -/
def matchCI : List Char → List Char → Option (Char × List Char)
  | [], _ => none
  | [w], c :: cs => if foldCI c == foldCI w then some (c, cs) else none
  | w :: w2 :: ws, c :: cs => if foldCI c == foldCI w then matchCI (w2 :: ws) cs else none
  | _ :: _, [] => none

/-- Wordness of an optional neighbouring character; the edges of the string
count as non-word characters for the JS backslash-b assertion. -/
def wordish : Option Char → Bool
  | some c => isWordCharJS c
  | none => false

/-- Scan t for an occurrence of w surrounded by word boundaries (wordness must
differ on the two sides of each end of the match); prev is the character just
before the current position. -/
def hasWordFrom (w : List Char) : Option Char → List Char → Bool
  | _, [] => false
  | prev, c :: cs =>
    (match matchCI w (c :: cs) with
     | some (lastC, rest) =>
       (wordish prev != isWordCharJS c) && (isWordCharJS lastC != wordish rest.head?)
     | none => false)
    || hasWordFrom w (some c) cs

/-- AppStoreService.isTurkishContent: a Turkish character anywhere in the text,
or one of the fixed Turkish words matched with word boundaries, case
insensitively. -/
def isTurkishContent (text : String) : Bool :=
  text.data.any (fun c => turkishChars.contains c)
    || turkishWords.any (fun w => hasWordFrom w.data none text.data)

/-- Keep condition of the per-entry loop in fetchReviewsPage: the entry must
have a truthy (present and non-empty) content label, and the built review must
pass the language filter: Turkish content or country equal to tr. -/
def keepEntry (country : String) (e : FeedEntry) : Bool :=
  match e.contentLabel with
  | some c => c != "" && (isTurkishContent c || country == "tr")
  | none => false

/-- Review record built from one feed entry (source lines 70 to 80 of the
App Store service). -/
def entryToReview (country : String) (e : FeedEntry) : Review :=
  { id := "as_" ++ e.idLabel,
    platform := "App Store",
    author := e.authorName.getD "Anonymous",
    rating := match e.imRating with
      | some lbl => parseIntJS lbl
      | none => some 0,
    title := some (e.titleLabel.getD ""),
    content := e.contentLabel.getD "",
    date := e.updatedLabel.getD "",
    version := some (e.imVersion.getD ""),
    language := country }

/-- Per-page processing: skip the first feed entry (it is app information, not
a review), keep the entries with truthy content passing the language filter,
and build the review records. -/
def pageReviews (country : String) (entries : List FeedEntry) : List Review :=
  ((entries.drop 1).filter (keepEntry country)).map (entryToReview country)

/-- AppStoreService.fetchReviewsPage. The oracle argument is the axios result:
a network or HTTP error (the 404 case and every other error), a response
without feed entries, or the feed entries themselves. Every failure branch
returns the empty list. -/
def fetchReviewsPage (country : String)
    (resp : Except String (Option (List FeedEntry))) : List Review :=
  match resp with
  | Except.error _ => []
  | Except.ok none => []
  | Except.ok (some entries) => pageReviews country entries

/-- Loop of AppStoreService.fetchReviews: while fewer than limit reviews have
accumulated and the page counter has not passed maxPages, fetch the page, stop
if it contributes no reviews, otherwise append its reviews truncated to the
remaining capacity and move to the next page. The structural fuel counts the
page numbers still allowed by the cap: fuel = maxPages + 1 - page, so fuel 0 is
exactly the loop condition page > maxPages. -/
def fetchLoop (country : String) (limit : Nat)
    (pages : Nat → Except String (Option (List FeedEntry))) :
    Nat → Nat → List Review → List Review
  | _, 0, acc => acc
  | page, fuel + 1, acc =>
    if acc.length < limit then
      if (fetchReviewsPage country (pages page)).length = 0 then acc
      else fetchLoop country limit pages (page + 1) fuel
        (acc ++ (fetchReviewsPage country (pages page)).take (limit - acc.length))
    else acc

/-- AppStoreService.fetchReviews (source lines 15 to 41): pages are fetched
starting at page 1, with maxPages the ceiling of limit / 50. The appId only
enters the request URL, which the page oracle already embodies. -/
def fetchReviews (country : String) (limit : Nat)
    (pages : Nat → Except String (Option (List FeedEntry))) : List Review :=
  fetchLoop country limit pages 1 ((limit + 49) / 50) []

/-- First lookup result of the iTunes lookup endpoint; numeric JSON fields are
carried as their scalar rendering, and formattedPrice may be absent (the code
falls back to Free). -/
structure LookupApp where
  trackName : String
  artistName : String
  averageUserRating : String
  userRatingCount : String
  version : String
  formattedPrice : Option String := none
  primaryGenreName : String
  currentVersionReleaseDate : String
  description : String
  trackViewUrl : String
  deriving DecidableEq

/-- App metadata record assembled by AppStoreService.getAppInfo. -/
structure AppInfo where
  name : String
  developer : String
  rating : String
  reviews_count : String
  version : String
  price : String
  category : String
  updated : String
  description : String
  app_store_url : String
  deriving DecidableEq

/-- AppStoreService.getAppInfo: the lookup response either errors, has no
results, or yields a first result which is reformatted; every failure branch
returns null (none). -/
def getAppInfo (resp : Except String (Option LookupApp)) : Option AppInfo :=
  match resp with
  | Except.error _ => none
  | Except.ok none => none
  | Except.ok (some app) =>
    some { name := app.trackName, developer := app.artistName,
           rating := app.averageUserRating, reviews_count := app.userRatingCount,
           version := app.version, price := app.formattedPrice.getD "Free",
           category := app.primaryGenreName, updated := app.currentVersionReleaseDate,
           description := app.description, app_store_url := app.trackViewUrl }

end AppStoreService

namespace GooglePlayService

/-- One review object returned by the google-play-scraper library. The date
fields hold the already-formatted ISO date prefix when the raw value is present
and convertible (the conversion itself is a JS Date built-in); `none` means the
raw value was absent or failed to convert, in which case the code falls back to
the current date (or null for the reply date). -/
structure LibReview where
  id : Option String := none
  userName : Option String := none
  score : Option Int := none
  text : Option String := none
  thumbsUp : Option Int := none
  version : Option String := none
  replyText : Option String := none
  dateFormatted : Option String := none
  replyDateFormatted : Option String := none
  deriving DecidableEq

/-- Review built by the library path for the library review at the given
index; today is the current ISO date prefix and now the Date.now tick used in
generated ids. -/
def libToReview (language today now : String) (idx : Nat) (r : LibReview) : Review :=
  { id := "gp_lib_" ++ orElseStr r.id now ++ "_" ++ toString idx,
    platform := "Google Play",
    author := orElseStr r.userName "Anonymous",
    rating := some (r.score.getD 0),
    date := r.dateFormatted.getD today,
    content := r.text.getD "",
    helpfulNum := some (r.thumbsUp.getD 0),
    language := language,
    version := some (r.version.getD ""),
    reply := r.replyText.bind (fun t => if t == "" then none else some t),
    replyDate := r.replyDateFormatted }

/-- GooglePlayService.getReviewsWithLibrary: the oracle is the library call
result (a rejection, a missing data field, or the review objects); the num
request option min(limit, 200) only shapes the request the oracle answers.
The formatted reviews keep only those whose content is non-empty and longer
than 10 characters. -/
def getReviewsWithLibrary (resp : Except String (Option (List LibReview)))
    (language today now : String) : List Review :=
  match resp with
  | Except.error _ => []
  | Except.ok none => []
  | Except.ok (some data) =>
    if data.isEmpty then []
    else
      ((data.enum.map (fun p => libToReview language today now p.1 p.2)).filter
        (fun r => r.content != "" && decide (10 < r.content.length)))

/-- Extracted fields of one review container of the getreviews endpoint
response HTML; the selector queries are cheerio built-ins, and starCount is the
number of star elements found, which the code uses as the rating. -/
structure EndpointBlock where
  author : String
  starCount : Nat
  date : String
  content : String
  deriving DecidableEq

/-- Loop of parsePlayStoreReviews: iteration stops once the limit is reached;
a block is kept only when both its content and its author are non-empty. -/
def parsePSLoop (now : String) : List EndpointBlock → Nat → Nat → List Review
  | [], _, _ => []
  | b :: rest, idx, remaining =>
    if remaining = 0 then []
    else if b.content != "" && b.author != "" then
      { id := "gp_api_" ++ now ++ "_" ++ toString idx,
        platform := "Google Play",
        author := b.author,
        rating := some (b.starCount : Int),
        date := b.date,
        content := b.content,
        language := "tr" } :: parsePSLoop now rest (idx + 1) (remaining - 1)
    else parsePSLoop now rest (idx + 1) remaining

/-- GooglePlayService.parsePlayStoreReviews over the review containers found
in the unwrapped response HTML. -/
def parsePlayStoreReviews (blocks : List EndpointBlock) (limit : Nat) (now : String) :
    List Review :=
  parsePSLoop now blocks 0 limit

/-- GooglePlayService.getReviewsFromPlayStore: the oracle is the axios result;
a rejection, a short or unparseable response, and a response missing the
data[0][2] payload all yield the empty list, otherwise the unwrapped HTML is
parsed. -/
def getReviewsFromPlayStore (resp : Except String (Option (List EndpointBlock)))
    (limit : Nat) (now : String) : List Review :=
  match resp with
  | Except.error _ => []
  | Except.ok none => []
  | Except.ok (some blocks) => parsePlayStoreReviews blocks limit now

/-- JSON-like values inside the AF_initDataCallback payloads; numbers are
carried as integers. -/
inductive JsVal where
  | str : String → JsVal
  | num : Int → JsVal
  | arr : List JsVal → JsVal
  | other : JsVal

/-- First string item of plausible review-content length (longer than 20 and
shorter than 1000 characters). -/
def findContent (arr : List JsVal) : Option String :=
  arr.findSome? (fun v => match v with
    | JsVal.str s => if 20 < s.length ∧ s.length < 1000 then some s else none
    | _ => none)

/-- First string item that looks like an author name: between 2 and 50
characters, without a space, and different from the found content string (a
strict JS inequality that also holds when no content was found). -/
def findAuthor (arr : List JsVal) (foundContent : Option String) : Option String :=
  arr.findSome? (fun v => match v with
    | JsVal.str s =>
      if 2 < s.length ∧ s.length < 50 ∧ ¬ s.data.contains ' ' ∧ some s ≠ foundContent
      then some s else none
    | _ => none)

/-- First numeric item between 1 and 5, used as the rating when present. -/
def findRating (arr : List JsVal) : Option Int :=
  arr.findSome? (fun v => match v with
    | JsVal.num n => if 1 ≤ n ∧ n ≤ 5 then some n else none
    | _ => none)

/-- GooglePlayService.parseReviewArray: a review is produced only when both a
plausible content string and a plausible author string are found; the nonce
models the Date.now tick and random suffix of the generated id. -/
def parseReviewArray (nonce today : String) (arr : List JsVal) : Option Review :=
  let foundContent := findContent arr
  match foundContent, findAuthor arr foundContent with
  | some content, some author =>
    some { id := "gp_js_" ++ nonce,
           platform := "Google Play",
           author := author,
           rating := some ((findRating arr).getD 0),
           date := today,
           content := content,
           helpfulText := some "",
           language := "tr" }
  | _, _ => none

/-- Head of a JS array is a string. -/
def headIsString : List JsVal → Bool
  | JsVal.str _ :: _ => true
  | _ => false

/-- Some member is a string longer than 50 characters. -/
def hasLongString (l : List JsVal) : Bool :=
  l.any (fun v => match v with
    | JsVal.str s => 50 < s.length
    | _ => false)

/-- GooglePlayService.parseNestedReviewData: walk the nested arrays; an array
that looks like review data (more than 5 items, a string head, some member a
long string) is parsed as a single review, any other array is recursed into
with the remaining capacity; iteration stops when the capacity is exhausted. -/
def parseNestedReviewData (nonce today : String) : List JsVal → Nat → List Review
  | [], _ => []
  | item :: rest, remaining =>
    if remaining = 0 then []
    else
      match item with
      | JsVal.arr sub =>
        if 5 < sub.length ∧ headIsString sub ∧ hasLongString sub then
          match parseReviewArray nonce today sub with
          | some r => r :: parseNestedReviewData nonce today rest (remaining - 1)
          | none => parseNestedReviewData nonce today rest remaining
        else
          let nested := parseNestedReviewData nonce today sub remaining
          nested ++ parseNestedReviewData nonce today rest (remaining - nested.length)
      | _ => parseNestedReviewData nonce today rest remaining
  termination_by l _ => sizeOf l

/-- GooglePlayService.extractReviewsFromJavaScript: the oracle is the list of
AF_initDataCallback data captures in source order, each either a parsed JSON
array or a parse failure (which is skipped); the scan stops once the limit is
reached. -/
def extractJSLoop (nonce today : String) : List (Option (List JsVal)) → Nat → List Review
  | [], _ => []
  | m :: rest, remaining =>
    if remaining = 0 then []
    else
      match m with
      | none => extractJSLoop nonce today rest remaining
      | some data =>
        let found := parseNestedReviewData nonce today data remaining
        found ++ extractJSLoop nonce today rest (remaining - found.length)

/-- Entry point of the JavaScript extraction over the captured payloads. -/
def extractReviewsFromJavaScript (jsData : List (Option (List JsVal))) (limit : Nat)
    (nonce today : String) : List Review :=
  extractJSLoop nonce today jsData limit

/-- Extracted raw pieces of one HTML review container: the text values of the
selector queries, the regex fallback captures over the container text, the
rating attribute chain, the number of star elements, and the result of the
extractContentFromReviewElement helper, whose regex heuristics over the raw
container text are treated as an oracle input. -/
structure HtmlBlock where
  authorSel : String
  authorFromText : Option String := none
  ratingAttr : Option String := none
  dateSel : String
  dateFromText : Option String := none
  contentSel : String
  contentFromElem : String
  starCount : Nat
  fullText : String
  helpfulSel : String
  deriving DecidableEq

/-- First maximal run of decimal digits in the string, as a number: the JS
match against a digit-run group followed by parseInt. -/
def firstDigits : List Char → Option Nat
  | [] => none
  | c :: cs =>
    if c.isDigit then
      some (((c :: cs).takeWhile (fun d => d.isDigit)).foldl
        (fun n d => n * 10 + (d.toNat - 48)) 0)
    else firstDigits cs

/-- Case-insensitive literal prefix match returning the remainder. -/
def dropCI : List Char → List Char → Option (List Char)
  | [], t => some t
  | _ :: _, [] => none
  | w :: ws, c :: cs => if foldCI c == foldCI w then dropCI ws cs else none

/-- Leftmost match of a digit followed by optional whitespace and the given
keyword, case insensitively; returns the digit value. -/
def digitThenWord (kw : List Char) : List Char → Option Nat
  | [] => none
  | c :: cs =>
    if c.isDigit ∧ (dropCI kw (cs.dropWhile (fun d => d.isWhitespace))).isSome then
      some (c.toNat - 48)
    else digitThenWord kw cs

/-- After the literal rate: an optional d, optional whitespace and a digit,
with regex backtracking on the optional d. -/
def afterRate (rest : List Char) : Option Nat :=
  let withD : Option Nat :=
    match rest with
    | d :: t =>
      if foldCI d == 'd' then
        match t.dropWhile (fun x => x.isWhitespace) with
        | x :: _ => if x.isDigit then some (x.toNat - 48) else none
        | [] => none
      else none
    | [] => none
  match withD with
  | some n => some n
  | none =>
    match rest.dropWhile (fun x => x.isWhitespace) with
    | x :: _ => if x.isDigit then some (x.toNat - 48) else none
    | [] => none

/-- Leftmost match of the rate pattern: the literal rate, an optional d,
optional whitespace, then a digit, case insensitively. -/
def rateThenDigit : List Char → Option Nat
  | [] => none
  | c :: cs =>
    match dropCI ['r', 'a', 't', 'e'] (c :: cs) with
    | some rest =>
      match afterRate rest with
      | some n => some n
      | none => rateThenDigit cs
    | none => rateThenDigit cs

/-- The three rating text patterns in source order: digit before the Turkish
star word, digit before the English star word, and the rate pattern. -/
def ratingCandidates (text : String) : List (Option Nat) :=
  [digitThenWord ("yıldız".data) text.data,
   digitThenWord ("star".data) text.data,
   rateThenDigit text.data]

/-- Scan of the pattern results in order: the first matched digit lying
between 1 and 5 is returned, otherwise 0. -/
def firstValidRating : List (Option Nat) → Nat
  | [] => 0
  | some r :: rest => if 1 ≤ r ∧ r ≤ 5 then r else firstValidRating rest
  | none :: rest => firstValidRating rest

/-- GooglePlayService.extractRatingFromText. -/
def extractRatingFromText (text : String) : Nat :=
  firstValidRating (ratingCandidates text)

/-- Review built from one HTML review container when the content length check
passes; mirrors the body of the each-loop of scrapeReviewsFromWeb. -/
def htmlBlockToReview (language nonce today : String) (idx : Nat) (b : HtmlBlock) :
    Option Review :=
  let author := if b.authorSel != "" then b.authorSel
                else orElseStr b.authorFromText "Anonymous"
  let ratingStr := b.ratingAttr.getD ""
  let date := if b.dateSel != "" then b.dateSel else b.dateFromText.getD ""
  let content := if b.contentSel != "" then b.contentSel else b.contentFromElem
  if content != "" && decide (10 < content.length) then
    let numericRating : Nat :=
      match firstDigits ratingStr.data with
      | some n => n
      | none => if 0 < b.starCount then b.starCount else extractRatingFromText b.fullText
    some { id := "gp_web_" ++ nonce ++ "_" ++ toString idx,
           platform := "Google Play",
           author := if author != "" then author else "User_" ++ toString (idx + 1),
           rating := some (numericRating : Int),
           date := if date != "" then date else today,
           content := content,
           helpfulText := some b.helpfulSel,
           language := language }
  else none

/-- The each-loop over the HTML review containers with the running limit. -/
def scrapeHtmlLoop (language nonce today : String) :
    List HtmlBlock → Nat → Nat → List Review
  | [], _, _ => []
  | b :: rest, idx, remaining =>
    if remaining = 0 then []
    else match htmlBlockToReview language nonce today idx b with
      | some r => r :: scrapeHtmlLoop language nonce today rest (idx + 1) (remaining - 1)
      | none => scrapeHtmlLoop language nonce today rest (idx + 1) remaining

/-- Page content the web-scraping tier works on: the JavaScript data captures
and the review containers found by the first matching selector (an empty list
when no selector matched anything). -/
structure ScrapePage where
  jsData : List (Option (List JsVal))
  htmlBlocks : List HtmlBlock

/-- GooglePlayService.scrapeReviewsFromWeb: a request failure returns the
empty list; otherwise JavaScript extraction is tried first and returned when
non-empty; otherwise, when no review container was found the tier returns the
empty list, else the containers are scraped under the limit cap. -/
def scrapeReviewsFromWeb (resp : Except String ScrapePage) (language : String)
    (limit : Nat) (nonce today : String) : List Review :=
  match resp with
  | Except.error _ => []
  | Except.ok page =>
    let js := extractReviewsFromJavaScript page.jsData limit nonce today
    if 0 < js.length then js
    else if page.htmlBlocks.length = 0 then []
    else scrapeHtmlLoop language nonce today page.htmlBlocks 0 limit

/-- GooglePlayService.fetchReviews (source lines 17 to 42): the three
strategies in their fixed order, each with its oracle; the first component of
the result lists the strategies actually invoked, in order. The throw in the
outer catch is unreachable because every tier catches its failures internally.
The packageId only enters the requests, which the oracles embody. -/
def fetchReviews (libResp : Except String (Option (List LibReview)))
    (apiResp : Except String (Option (List EndpointBlock)))
    (webResp : Except String ScrapePage)
    (language : String) (limit : Nat) (today now nonce : String) :
    List String × List Review :=
  let lib := getReviewsWithLibrary libResp language today now
  if 0 < lib.length then (["library"], lib)
  else
    let api := getReviewsFromPlayStore apiResp limit now
    if 0 < api.length then (["library", "getreviews"], api)
    else (["library", "getreviews", "webscrape"],
          scrapeReviewsFromWeb webResp language limit nonce today)

/-- Library app result for getAppInfo, with the numeric formatting built-ins
(toFixed, toLocaleString) treated as oracle-rendered strings; a `none` field is
falsy and takes the coded default. The screenshot and video pass-through
fields are omitted. -/
structure GPAppRaw where
  title : Option String := none
  developer : Option String := none
  scoreFixed : Option String := none
  reviewsLocale : Option String := none
  installs : Option String := none
  updated : Option String := none
  version : Option String := none
  description : Option String := none
  price : Option String := none
  genre : Option String := none
  deriving DecidableEq

/-- Selector texts of the manual app-info scraping fallback. -/
structure GPAppScraped where
  name : String
  developer : String
  rating : String
  reviews_count : String
  installs : String
  updated : String
  version : String
  deriving DecidableEq

/-- App metadata record assembled by GooglePlayService.getAppInfo; the fields
only set by the library path are optional. -/
structure GPAppInfo where
  name : String
  developer : String
  rating : String
  reviews_count : String
  installs : String
  updated : String
  version : String
  description : Option String := none
  price : Option String := none
  category : Option String := none
  deriving DecidableEq

/-- GooglePlayService.getAppInfo: the library result is used when the call
succeeds; on a library failure the manual scrape is used; when both fail the
function returns null (none). -/
def getAppInfo (libResp : Except String GPAppRaw)
    (scrapeResp : Except String GPAppScraped) : Option GPAppInfo :=
  match libResp with
  | Except.ok a =>
    some { name := a.title.getD "", developer := a.developer.getD "",
           rating := orElseStr a.scoreFixed "0",
           reviews_count := orElseStr a.reviewsLocale "0",
           installs := orElseStr a.installs "0",
           updated := a.updated.getD "",
           version := a.version.getD "",
           description := some (a.description.getD ""),
           price := some (orElseStr a.price "Free"),
           category := some (a.genre.getD "") }
  | Except.error _ =>
    match scrapeResp with
    | Except.ok s =>
      some { name := s.name, developer := s.developer, rating := s.rating,
             reviews_count := s.reviews_count, installs := s.installs,
             updated := s.updated, version := s.version }
    | Except.error _ => none

end GooglePlayService

namespace ReviewsApi

/-- Per-platform entry of the GET /reviews response body. -/
structure PlatformEntry where
  success : Bool
  count : Nat
  reviews : List Review
  error : Option String := none
  deriving DecidableEq

/-- The GET /reviews JSON response; in the non-throwing path the HTTP status
is the express default 200. -/
structure ReviewsResponse where
  httpStatus : Nat
  success : Bool
  total_reviews : Nat
  android : PlatformEntry
  ios : PlatformEntry
  combined_reviews : List Review
  deriving DecidableEq

/-- Sort of the combined list: the JS comparator subtracts the parsed dates of
the two reviews, giving a stable sort descending by date; parseDate models the
JS Date parsing of a stored date string. -/
def sortByDateDesc (parseDate : String → Int) (l : List Review) : List Review :=
  l.mergeSort (fun a b => decide (parseDate b.date ≤ parseDate a.date))

/-- GET /reviews handler body after both adapter promises settle (the
Promise.allSettled join): per-platform entries from the settle status, the
fulfilled platforms' reviews concatenated android first, sorted by date newest
first, with the total set to the combined length. Source lines 40 to 110 of
the server file. -/
def getReviewsHandler (parseDate : String → Int)
    (androidReviews iosReviews : Except String (List Review)) : ReviewsResponse :=
  let androidEntry : PlatformEntry :=
    match androidReviews with
    | Except.ok v => { success := true, count := v.length, reviews := v }
    | Except.error m => { success := false, count := 0, reviews := [], error := some m }
  let iosEntry : PlatformEntry :=
    match iosReviews with
    | Except.ok v => { success := true, count := v.length, reviews := v }
    | Except.error m => { success := false, count := 0, reviews := [], error := some m }
  let combined :=
    (match androidReviews with | Except.ok v => v | Except.error _ => [])
      ++ (match iosReviews with | Except.ok v => v | Except.error _ => [])
  let sorted := sortByDateDesc parseDate combined
  { httpStatus := 200,
    success := true,
    total_reviews := sorted.length,
    android := androidEntry,
    ios := iosEntry,
    combined_reviews := sorted }

/-- appConfig.settings.maxReviews. -/
def maxReviews : Int := 100

/-- Effective limit of GET /reviews: parseInt of the query parameter (none
models NaN from an absent or unparseable parameter) with the JS or-default,
under which 0 and NaN both fall back to the configured maximum. -/
def effectiveLimit (q : Option Int) : Int :=
  match q with
  | some v => if v = 0 then maxReviews else v
  | none => maxReviews

/-- Math.ceil of an integer halved; only even values are ever divided, so the
value does not depend on the integer division convention. -/
def ceilHalf (v : Int) : Int :=
  if v % 2 = 0 then v / 2 else (v + 1) / 2

/-- Per-platform limit of GET /reviews (source lines 42 and 43). -/
def limitPerPlatform (q : Option Int) : Int :=
  ceilHalf (effectiveLimit q)

end ReviewsApi

namespace AppStoreService

/-- Page processing as the specification words it: drop the first entry, keep
every remaining entry whose content label is present and non-empty and whose
content passes the language filter (Turkish content, or country equal to tr),
and build the review records. -/
def pageReviewsSpec (country : String) (entries : List FeedEntry) : List Review :=
  (entries.drop 1).filterMap (fun e =>
    match e.contentLabel with
    | some c =>
      if c ≠ "" ∧ (isTurkishContent c = true ∨ country = "tr")
      then some (entryToReview country e) else none
    | none => none)

/-- Page fetch as the specification words it, over the same oracle. -/
def fetchReviewsPageSpec (country : String)
    (resp : Except String (Option (List FeedEntry))) : List Review :=
  match resp with
  | Except.error _ => []
  | Except.ok none => []
  | Except.ok (some entries) => pageReviewsSpec country entries

/-- Successive page results starting at the given page, at most fuel many
pages, cut at the first page that contributes no reviews. -/
def pagesUntilEmpty (country : String)
    (pages : Nat → Except String (Option (List FeedEntry))) :
    Nat → Nat → List (List Review)
  | _, 0 => []
  | page, fuel + 1 =>
    if (fetchReviewsPageSpec country (pages page)).length = 0 then []
    else fetchReviewsPageSpec country (pages page)
      :: pagesUntilEmpty country pages (page + 1) fuel

/-- AppStoreService.fetchReviews as the amended claim describes it: concatenate
the page results starting at page 1, stopping at the first empty page or after
ceil(limit / 50) pages, and truncate the concatenation to the limit. -/
def fetchReviewsSpec (country : String) (limit : Nat)
    (pages : Nat → Except String (Option (List FeedEntry))) : List Review :=
  ((pagesUntilEmpty country pages 1 ((limit + 49) / 50)).flatten).take limit

/-- The fetch loop exactly as claim C2 words it: keep fetching successive
pages until the accumulated count reaches the limit or a page yields zero
reviews, with no page cap; the fuel only bounds the recursion and is not
exhausted at the concrete input it is evaluated on. -/
def fetchClaimLoop (country : String) (limit : Nat)
    (pages : Nat → Except String (Option (List FeedEntry))) :
    Nat → Nat → List Review → List Review
  | _, 0, acc => acc
  | page, fuel + 1, acc =>
    if acc.length < limit then
      let pr := fetchReviewsPage country (pages page)
      if pr.length = 0 then acc
      else fetchClaimLoop country limit pages (page + 1) fuel
        (acc ++ pr.take (limit - acc.length))
    else acc

/-- Entry point of the claim-worded fetch: fuel equal to the limit suffices
because every continued iteration contributes at least one review. -/
def fetchReviewsClaim (country : String) (limit : Nat)
    (pages : Nat → Except String (Option (List FeedEntry))) : List Review :=
  fetchClaimLoop country limit pages 1 limit []

/-- Page processing with the language filter removed: every post-skip entry
with a present non-empty content label is kept. -/
def pageReviewsNoFilter (country : String) (entries : List FeedEntry) : List Review :=
  ((entries.drop 1).filter (fun e =>
    match e.contentLabel with
    | some c => c != ""
    | none => false)).map (entryToReview country)

/-- Page fetch with the language filter removed, over the same oracle. -/
def fetchReviewsPageNoFilter (country : String)
    (resp : Except String (Option (List FeedEntry))) : List Review :=
  match resp with
  | Except.error _ => []
  | Except.ok none => []
  | Except.ok (some entries) => pageReviewsNoFilter country entries

end AppStoreService

/-- Rating wellformedness stated by the data model: an integer between 0 and 5
(so in particular not the NaN modelled by none). -/
def ratingOk (r : Review) : Bool :=
  match r.rating with
  | some k => decide (0 ≤ k ∧ k ≤ 5)
  | none => false

/-- Wellformedness of the raw App Store rating label: absent, or parsing to an
integer between 0 and 5. -/
def feedRatingOk (e : AppStoreService.FeedEntry) : Bool :=
  match e.imRating with
  | some lbl =>
    match parseIntJS lbl with
    | some k => decide (0 ≤ k ∧ k ≤ 5)
    | none => false
  | none => true

/-- Wellformedness of a library review score after the or-default: between 0
and 5. -/
def libScoreOk (d : GooglePlayService.LibReview) : Bool :=
  decide (0 ≤ d.score.getD 0 ∧ d.score.getD 0 ≤ 5)

/-- Wellformedness of the rating inputs of one HTML review container: the
digit run of the rating attribute, when there is one, is at most 5, and the
star element count is at most 5. -/
def htmlRatingOk (b : GooglePlayService.HtmlBlock) : Bool :=
  (match GooglePlayService.firstDigits (b.ratingAttr.getD "").data with
   | some n => decide (n ≤ 5)
   | none => true)
  && decide (b.starCount ≤ 5)

/-- Feed entry used by the C2 counterexample pages. -/
def c2Entry : AppStoreService.FeedEntry :=
  { idLabel := "1", authorName := some "Ali", imRating := some "5",
    titleLabel := some "Harika", contentLabel := some "çok güzel",
    updatedLabel := some "2024-01-15T10:00:00Z", imVersion := some "1.0" }

/-- Page oracle of the C2 counterexample: every page is an app-information
entry followed by ten review entries, so every fetched page contributes ten
reviews and no page is ever empty. -/
def c2Pages (_p : Nat) : Except String (Option (List AppStoreService.FeedEntry)) :=
  Except.ok (some (List.replicate 11 c2Entry))

/-- Feed entry with non-empty, non-Turkish content, used to show the language
filter can drop a review when the country is not tr. -/
def c9Entry : AppStoreService.FeedEntry :=
  { idLabel := "9", authorName := some "Sam", imRating := some "4",
    titleLabel := some "ok", contentLabel := some "hello",
    updatedLabel := some "2024-02-02T00:00:00Z", imVersion := some "2.0" }

/-- Page response whose single post-skip entry is the non-Turkish one. -/
def c9Resp : Except String (Option (List AppStoreService.FeedEntry)) :=
  Except.ok (some [c2Entry, c9Entry])

/-- Endpoint review container with six star elements, giving rating 6. -/
def c5Block : GooglePlayService.EndpointBlock :=
  { author := "Ayşe", starCount := 6, date := "1 Ocak 2024",
    content := "Uygulama indirim döneminde çok yavaş" }

/-- Endpoint review container with a well-formed star count. -/
def c5BlockOk : GooglePlayService.EndpointBlock :=
  { author := "Murat", starCount := 4, date := "2 Ocak 2024",
    content := "Kargo takibi sorunsuz" }

/-- Library review with a well-formed score and long content. -/
def c5Lib : GooglePlayService.LibReview :=
  { id := some "abc", userName := some "Deniz", score := some 5,
    text := some "Bu uygulama gerçekten çok kullanışlı", thumbsUp := some 3,
    version := some "3.1", dateFormatted := some "2024-01-10" }

/-- HTML review container with a well-formed rating attribute and long
content. -/
def c5Html : GooglePlayService.HtmlBlock :=
  { authorSel := "Ece", ratingAttr := some "Rated 4 stars out of five",
    dateSel := "3 Ocak 2024", contentSel := "Sepete ekleme sırasında hata veriyor",
    contentFromElem := "", starCount := 4, fullText := "", helpfulSel := "12" }

/-- Scrape page whose only data is the single HTML container above. -/
def c5Page : GooglePlayService.ScrapePage :=
  { jsData := [], htmlBlocks := [c5Html] }

/-- JavaScript data array that parses as one review: a long content string, a
spaceless author string, and a rating number. -/
def sampleJsArr : List GooglePlayService.JsVal :=
  [GooglePlayService.JsVal.str "Uygulamanin son guncellemesi cok basarili olmus",
   GooglePlayService.JsVal.str "Kaan",
   GooglePlayService.JsVal.num 4,
   GooglePlayService.JsVal.other]

/-- Library response with one passing review, used to exercise the first
strategy of the Google Play fallback chain. -/
def c1LibResp : Except String (Option (List GooglePlayService.LibReview)) :=
  Except.ok (some [c5Lib])

/-- Simple review used to build concrete per-platform lists. -/
def sampleReview : Review :=
  { id := "s1", platform := "App Store", author := "a", rating := some 5,
    content := "iyi", date := "2024-01-01", language := "tr" }

/-- Three-review android list for instantiating the handler bound. -/
def c8ListA : List Review := List.replicate 3 sampleReview

/-- Three-review ios list for instantiating the handler bound. -/
def c8ListB : List Review := List.replicate 3 sampleReview

/-! Helper lemmas. -/

theorem filter_map_eq_filterMap {α β : Type} (p : α → Bool) (f : α → β) (g : α → Option β)
    (hg : ∀ a, g a = if p a then some (f a) else none) :
    ∀ l : List α, (l.filter p).map f = l.filterMap g := by
  intro l
  induction l with
  | nil => rfl
  | cons a t ih =>
    rw [List.filter_cons, List.filterMap_cons, hg a]
    by_cases hp : p a
    · simp only [hp, if_true, List.map_cons, ih]
    · simp only [hp, Bool.false_eq_true, if_false, ih]

theorem pageReviews_eq_spec (country : String) (entries : List AppStoreService.FeedEntry) :
    AppStoreService.pageReviews country entries
      = AppStoreService.pageReviewsSpec country entries := by
  unfold AppStoreService.pageReviews AppStoreService.pageReviewsSpec
  apply filter_map_eq_filterMap
  intro e
  unfold AppStoreService.keepEntry
  cases hc : e.contentLabel with
  | none => rfl
  | some c =>
    dsimp only
    simp only [Bool.and_eq_true, Bool.or_eq_true, bne_iff_ne, beq_iff_eq]

theorem fetchReviewsPageSpec_eq (country : String)
    (resp : Except String (Option (List AppStoreService.FeedEntry))) :
    AppStoreService.fetchReviewsPageSpec country resp
      = AppStoreService.fetchReviewsPage country resp := by
  cases resp with
  | error m => rfl
  | ok o =>
    cases o with
    | none => rfl
    | some entries => exact (pageReviews_eq_spec country entries).symm

theorem take_append_take {α : Type} (acc pr J : List α) (limit : Nat)
    (hacc : acc.length ≤ limit) :
    ((acc ++ pr.take (limit - acc.length)) ++ J).take limit
      = (acc ++ (pr ++ J)).take limit := by
  simp only [List.append_assoc, List.take_append_eq_append_take, List.take_take,
    List.length_take, Nat.min_self, List.take_of_length_le hacc]
  congr 2
  congr 1
  omega

theorem fetchLoop_eq_spec (country : String) (limit : Nat)
    (pages : Nat → Except String (Option (List AppStoreService.FeedEntry))) :
    ∀ (fuel page : Nat) (acc : List Review), acc.length ≤ limit →
      AppStoreService.fetchLoop country limit pages page fuel acc
        = (acc ++ (AppStoreService.pagesUntilEmpty country pages page fuel).flatten).take limit := by
  intro fuel
  induction fuel with
  | zero =>
    intro page acc hacc
    simp [AppStoreService.fetchLoop, AppStoreService.pagesUntilEmpty,
      List.take_of_length_le hacc]
  | succ fuel ih =>
    intro page acc hacc
    rw [AppStoreService.fetchLoop, AppStoreService.pagesUntilEmpty,
      fetchReviewsPageSpec_eq]
    by_cases hlt : acc.length < limit
    · rw [if_pos hlt]
      by_cases hz : (AppStoreService.fetchReviewsPage country (pages page)).length = 0
      · rw [if_pos hz, if_pos hz]
        simp [List.take_of_length_le hacc]
      · rw [if_neg hz, if_neg hz]
        rw [ih (page + 1) _ (by
          rw [List.length_append, List.length_take]
          omega)]
        rw [List.flatten_cons, take_append_take _ _ _ _ hacc]
    · rw [if_neg hlt]
      have hacc2 : acc.length = limit := by omega
      rw [List.take_append_eq_append_take, List.take_of_length_le hacc, hacc2,
        Nat.sub_self, List.take_zero, List.append_nil]

/-! Claim theorems. -/

/-- C2 counterexample: with limit 100 and a page oracle on which every page
contributes ten reviews (so no page ever yields zero reviews), the code stops
after the two pages allowed by the maxPages cap with only 20 reviews, even
though the accumulated count is far below the limit and the next page is
non-empty; the loop worded exactly as the claim states it would collect 100
reviews. -/
theorem appStore_fetch_stops_at_page_cap :
    (AppStoreService.fetchReviews "tr" 100 c2Pages).length = 20 ∧
    (AppStoreService.fetchReviewsClaim "tr" 100 c2Pages).length = 100 ∧
    AppStoreService.fetchReviewsPage "tr" (c2Pages 3) ≠ [] := by
  exact ⟨by decide, by decide, by decide⟩

/-- C2 (amended): AppStoreService.fetchReviews keeps fetching successive pages
until the accumulated count reaches the limit, a page yields zero reviews, or
ceil(limit / 50) pages have been fetched; on each page the first feed entry is
skipped and each remaining entry with a non-empty content label passes the
Turkish-or-country-tr language filter before being included. Formally, the
code equals the reference function written from that description. -/
theorem appStore_fetchReviews_eq_spec :
    ∀ (country : String) (limit : Nat)
      (pages : Nat → Except String (Option (List AppStoreService.FeedEntry))),
      AppStoreService.fetchReviews country limit pages
        = AppStoreService.fetchReviewsSpec country limit pages := by
  intro country limit pages
  unfold AppStoreService.fetchReviews AppStoreService.fetchReviewsSpec
  rw [fetchLoop_eq_spec country limit pages ((limit + 49) / 50) 1 [] (by simp)]
  rw [List.nil_append]

/-- C10: for every country, limit and page oracle, AppStoreService.fetchReviews
returns at most limit reviews, because each page contribution is truncated to
the remaining capacity. -/
theorem appStore_fetchReviews_length_le :
    ∀ (country : String) (limit : Nat)
      (pages : Nat → Except String (Option (List AppStoreService.FeedEntry))),
      (AppStoreService.fetchReviews country limit pages).length ≤ limit := by
  intro country limit pages
  unfold AppStoreService.fetchReviews
  rw [fetchLoop_eq_spec country limit pages ((limit + 49) / 50) 1 [] (by simp)]
  rw [List.length_take]
  exact Nat.min_le_left _ _

/-- C9: with country tr the language filter of fetchReviewsPage is vacuous (the
page result equals the unfiltered one on every response), while for another
country an entry with a non-empty, non-Turkish content label is dropped by the
filter, as the concrete us page shows. -/
theorem appStore_tr_filter_vacuous :
    (∀ resp, AppStoreService.fetchReviewsPage "tr" resp
        = AppStoreService.fetchReviewsPageNoFilter "tr" resp) ∧
    AppStoreService.fetchReviewsPage "us" c9Resp = [] ∧
    AppStoreService.fetchReviewsPageNoFilter "us" c9Resp
      = [AppStoreService.entryToReview "us" c9Entry] := by
  refine ⟨?_, by decide, by decide⟩
  intro resp
  cases resp with
  | error m => rfl
  | ok o =>
    cases o with
    | none => rfl
    | some entries =>
      show AppStoreService.pageReviews "tr" entries
        = AppStoreService.pageReviewsNoFilter "tr" entries
      unfold AppStoreService.pageReviews AppStoreService.pageReviewsNoFilter
      congr 1
      apply List.filter_congr
      intro e _
      unfold AppStoreService.keepEntry
      cases e.contentLabel with
      | none => rfl
      | some c =>
        dsimp only
        rw [show (("tr" : String) == "tr") = true from rfl, Bool.or_true, Bool.and_true]

/-- C6: every extraction tier converts a failure of its external call into an
empty result instead of raising: the three Google Play tiers and the App Store
page fetch return the empty list on a rejected request, and both getAppInfo
functions return null when every approach fails. -/
theorem tiers_swallow_errors :
    (∀ (msg lang today now : String),
      GooglePlayService.getReviewsWithLibrary (Except.error msg) lang today now = []) ∧
    (∀ (msg : String) (limit : Nat) (now : String),
      GooglePlayService.getReviewsFromPlayStore (Except.error msg) limit now = []) ∧
    (∀ (msg lang : String) (limit : Nat) (nonce today : String),
      GooglePlayService.scrapeReviewsFromWeb (Except.error msg) lang limit nonce today = []) ∧
    (∀ (country msg : String),
      AppStoreService.fetchReviewsPage country (Except.error msg) = []) ∧
    (∀ (msg1 msg2 : String),
      GooglePlayService.getAppInfo (Except.error msg1) (Except.error msg2) = none) ∧
    (∀ (msg : String), AppStoreService.getAppInfo (Except.error msg) = none) :=
  ⟨fun _ _ _ _ => rfl, fun _ _ _ => rfl, fun _ _ _ _ _ => rfl,
   fun _ _ => rfl, fun _ _ => rfl, fun _ => rfl⟩

theorem sortByDateDesc_perm (parseDate : String → Int) (l : List Review) :
    (ReviewsApi.sortByDateDesc parseDate l).Perm l :=
  List.mergeSort_perm l _

theorem sortByDateDesc_sorted (parseDate : String → Int) (l : List Review) :
    List.Pairwise (fun x y => parseDate y.date ≤ parseDate x.date)
      (ReviewsApi.sortByDateDesc parseDate l) := by
  have h : List.Pairwise
      (fun x y : Review => decide (parseDate y.date ≤ parseDate x.date) = true)
      (l.mergeSort (fun x y : Review => decide (parseDate y.date ≤ parseDate x.date))) :=
    List.sorted_mergeSort
      (fun a b c hab hbc => by
        simp only [decide_eq_true_eq] at hab hbc ⊢
        exact le_trans hbc hab)
      (fun a b => by
        simp only [Bool.or_eq_true, decide_eq_true_eq]
        exact le_total _ _)
      l
  exact h.imp (fun hxy => of_decide_eq_true hxy)

/-- C3: when exactly one platform fetch rejects, GET /reviews still answers
with HTTP 200 and top-level success true; the failed platform entry has
success false, the rejection message and an empty review list, the fulfilled
platform entry has success true with its reviews, and combined_reviews holds
exactly the fulfilled platform's reviews. -/
theorem handler_single_rejection :
    ∀ (parseDate : String → Int) (msg : String) (l : List Review),
      ((ReviewsApi.getReviewsHandler parseDate (Except.error msg) (Except.ok l)).httpStatus = 200 ∧
       (ReviewsApi.getReviewsHandler parseDate (Except.error msg) (Except.ok l)).success = true ∧
       (ReviewsApi.getReviewsHandler parseDate (Except.error msg) (Except.ok l)).android.success = false ∧
       (ReviewsApi.getReviewsHandler parseDate (Except.error msg) (Except.ok l)).android.error = some msg ∧
       (ReviewsApi.getReviewsHandler parseDate (Except.error msg) (Except.ok l)).android.reviews = [] ∧
       (ReviewsApi.getReviewsHandler parseDate (Except.error msg) (Except.ok l)).ios.success = true ∧
       (ReviewsApi.getReviewsHandler parseDate (Except.error msg) (Except.ok l)).ios.reviews = l ∧
       ((ReviewsApi.getReviewsHandler parseDate (Except.error msg) (Except.ok l)).combined_reviews).Perm l) ∧
      ((ReviewsApi.getReviewsHandler parseDate (Except.ok l) (Except.error msg)).httpStatus = 200 ∧
       (ReviewsApi.getReviewsHandler parseDate (Except.ok l) (Except.error msg)).success = true ∧
       (ReviewsApi.getReviewsHandler parseDate (Except.ok l) (Except.error msg)).ios.success = false ∧
       (ReviewsApi.getReviewsHandler parseDate (Except.ok l) (Except.error msg)).ios.error = some msg ∧
       (ReviewsApi.getReviewsHandler parseDate (Except.ok l) (Except.error msg)).ios.reviews = [] ∧
       (ReviewsApi.getReviewsHandler parseDate (Except.ok l) (Except.error msg)).android.success = true ∧
       (ReviewsApi.getReviewsHandler parseDate (Except.ok l) (Except.error msg)).android.reviews = l ∧
       ((ReviewsApi.getReviewsHandler parseDate (Except.ok l) (Except.error msg)).combined_reviews).Perm l) := by
  intro parseDate msg l
  refine ⟨⟨rfl, rfl, rfl, rfl, rfl, rfl, rfl, ?_⟩, ⟨rfl, rfl, rfl, rfl, rfl, rfl, rfl, ?_⟩⟩
  · exact sortByDateDesc_perm parseDate ([] ++ l)
  · exact (sortByDateDesc_perm parseDate (l ++ [])).trans (by simp)

/-- C4: when both platform fetches fulfil, combined_reviews is a permutation
of the concatenation of the android and ios lists, it is sorted by parsed date
newest first, and total_reviews equals both its length and the sum of the two
per-platform counts. -/
theorem handler_combined_sorted :
    ∀ (parseDate : String → Int) (a i : List Review),
      ((ReviewsApi.getReviewsHandler parseDate (Except.ok a) (Except.ok i)).combined_reviews).Perm (a ++ i) ∧
      List.Pairwise (fun x y => parseDate y.date ≤ parseDate x.date)
        ((ReviewsApi.getReviewsHandler parseDate (Except.ok a) (Except.ok i)).combined_reviews) ∧
      (ReviewsApi.getReviewsHandler parseDate (Except.ok a) (Except.ok i)).total_reviews
        = ((ReviewsApi.getReviewsHandler parseDate (Except.ok a) (Except.ok i)).combined_reviews).length ∧
      (ReviewsApi.getReviewsHandler parseDate (Except.ok a) (Except.ok i)).total_reviews
        = a.length + i.length := by
  intro parseDate a i
  refine ⟨sortByDateDesc_perm parseDate (a ++ i), sortByDateDesc_sorted parseDate (a ++ i),
    rfl, ?_⟩
  have h := (sortByDateDesc_perm parseDate (a ++ i)).length_eq
  rw [List.length_append] at h
  exact h

/-- C8: each platform is asked for the ceiling of half the effective limit; an
absent or unparseable limit gives the default of 100 with 50 per platform; and
for an odd positive limit the two per-platform allowances sum to limit + 1, so
a response built from lists within those allowances can hold up to limit + 1
reviews. -/
theorem handler_limit_split :
    (∀ q, ReviewsApi.limitPerPlatform q = ReviewsApi.ceilHalf (ReviewsApi.effectiveLimit q)) ∧
    ReviewsApi.effectiveLimit none = 100 ∧
    ReviewsApi.limitPerPlatform none = 50 ∧
    (∀ L : Int, L % 2 = 1 → 2 * ReviewsApi.ceilHalf L = L + 1) ∧
    (∀ (L : Int) (parseDate : String → Int) (a i : List Review), L % 2 = 1 →
      (a.length : Int) ≤ ReviewsApi.ceilHalf L → (i.length : Int) ≤ ReviewsApi.ceilHalf L →
      (((ReviewsApi.getReviewsHandler parseDate (Except.ok a) (Except.ok i)).combined_reviews).length : Int)
        ≤ L + 1) := by
  refine ⟨fun q => rfl, rfl, rfl, ?_, ?_⟩
  · intro L hL
    unfold ReviewsApi.ceilHalf
    rw [if_neg (by omega)]
    omega
  · intro L parseDate a i hL ha hi
    have hlen : ((ReviewsApi.getReviewsHandler parseDate (Except.ok a) (Except.ok i)).combined_reviews).length
        = a.length + i.length := by
      have h := (sortByDateDesc_perm parseDate (a ++ i)).length_eq
      rwa [List.length_append] at h
    have hc : 2 * ReviewsApi.ceilHalf L = L + 1 := by
      unfold ReviewsApi.ceilHalf
      rw [if_neg (by omega)]
      omega
    rw [hlen]
    push_cast
    omega

/-- C8 witness: at the odd limit 5 each platform may return 3 reviews and the
combined response then holds 6 = 5 + 1 reviews, within the proven bound. -/
theorem handler_limit_split_witness :
    (((ReviewsApi.getReviewsHandler (fun _ => 0) (Except.ok c8ListA) (Except.ok c8ListB)).combined_reviews).length : Int)
      ≤ 5 + 1 :=
  handler_limit_split.2.2.2.2 5 (fun _ => 0) c8ListA c8ListB (by decide) (by decide) (by decide)

/-- C1: GooglePlayService.fetchReviews tries the library, the getreviews
endpoint and the web scrape in that fixed order, returns the first non-empty
result, and never invokes a later strategy when an earlier one returned a
non-empty list (the invoked strategies are recorded in the first component). -/
theorem gp_fallback_order :
    ∀ (libResp : Except String (Option (List GooglePlayService.LibReview)))
      (apiResp : Except String (Option (List GooglePlayService.EndpointBlock)))
      (webResp : Except String GooglePlayService.ScrapePage)
      (lang : String) (limit : Nat) (today now nonce : String),
      (GooglePlayService.getReviewsWithLibrary libResp lang today now ≠ [] →
        GooglePlayService.fetchReviews libResp apiResp webResp lang limit today now nonce
          = (["library"], GooglePlayService.getReviewsWithLibrary libResp lang today now)) ∧
      (GooglePlayService.getReviewsWithLibrary libResp lang today now = [] →
        GooglePlayService.getReviewsFromPlayStore apiResp limit now ≠ [] →
        GooglePlayService.fetchReviews libResp apiResp webResp lang limit today now nonce
          = (["library", "getreviews"],
             GooglePlayService.getReviewsFromPlayStore apiResp limit now)) ∧
      (GooglePlayService.getReviewsWithLibrary libResp lang today now = [] →
        GooglePlayService.getReviewsFromPlayStore apiResp limit now = [] →
        GooglePlayService.fetchReviews libResp apiResp webResp lang limit today now nonce
          = (["library", "getreviews", "webscrape"],
             GooglePlayService.scrapeReviewsFromWeb webResp lang limit nonce today)) ∧
      ("getreviews" ∈ (GooglePlayService.fetchReviews libResp apiResp webResp lang limit today now nonce).1 →
        GooglePlayService.getReviewsWithLibrary libResp lang today now = []) ∧
      ("webscrape" ∈ (GooglePlayService.fetchReviews libResp apiResp webResp lang limit today now nonce).1 →
        GooglePlayService.getReviewsWithLibrary libResp lang today now = [] ∧
        GooglePlayService.getReviewsFromPlayStore apiResp limit now = []) := by
  intro libResp apiResp webResp lang limit today now nonce
  by_cases h1 : GooglePlayService.getReviewsWithLibrary libResp lang today now = []
  · by_cases h2 : GooglePlayService.getReviewsFromPlayStore apiResp limit now = []
    · have hout : GooglePlayService.fetchReviews libResp apiResp webResp lang limit today now nonce
          = (["library", "getreviews", "webscrape"],
             GooglePlayService.scrapeReviewsFromWeb webResp lang limit nonce today) := by
        unfold GooglePlayService.fetchReviews
        rw [h1, h2]
        rfl
      exact ⟨fun hc => absurd h1 hc, fun _ hc => absurd h2 hc, fun _ _ => hout,
        fun _ => h1, fun _ => ⟨h1, h2⟩⟩
    · have hout : GooglePlayService.fetchReviews libResp apiResp webResp lang limit today now nonce
          = (["library", "getreviews"],
             GooglePlayService.getReviewsFromPlayStore apiResp limit now) := by
        unfold GooglePlayService.fetchReviews
        rw [h1]
        simp only [List.length_nil, Nat.lt_irrefl, if_false]
        rw [if_pos (List.length_pos.mpr h2)]
      refine ⟨fun hc => absurd h1 hc, fun _ _ => hout, fun _ hc => absurd hc h2,
        fun _ => h1, fun hmem => ?_⟩
      rw [hout] at hmem
      simp at hmem
  · have hout : GooglePlayService.fetchReviews libResp apiResp webResp lang limit today now nonce
        = (["library"], GooglePlayService.getReviewsWithLibrary libResp lang today now) := by
      unfold GooglePlayService.fetchReviews
      rw [if_pos (List.length_pos.mpr h1)]
    refine ⟨fun _ => hout, fun hc => absurd hc h1, fun hc => absurd hc h1,
      fun hmem => ?_, fun hmem => ?_⟩
    · rw [hout] at hmem
      simp at hmem
    · rw [hout] at hmem
      simp at hmem

/-- C1 witness: with a library response holding one passing review and both
fallback requests failing, the fallback chain returns the library result and
only the library strategy is invoked. -/
theorem gp_fallback_order_witness :
    GooglePlayService.fetchReviews c1LibResp (Except.error "api down") (Except.error "web down")
        "tr" 10 "2024-01-10" "1700000000000" "z"
      = (["library"],
         GooglePlayService.getReviewsWithLibrary c1LibResp "tr" "2024-01-10" "1700000000000") :=
  (gp_fallback_order c1LibResp (Except.error "api down") (Except.error "web down")
    "tr" 10 "2024-01-10" "1700000000000" "z").1 (by decide)

/-! Membership lemmas for the extraction paths. -/

theorem snd_mem_of_mem_enum {α : Type} {l : List α} {p : Nat × α} (h : p ∈ l.enum) :
    p.2 ∈ l := by
  have hm := List.mem_map_of_mem Prod.snd h
  rwa [List.enum_map_snd] at hm

theorem getReviewsWithLibrary_mem
    (resp : Except String (Option (List GooglePlayService.LibReview)))
    (lang today now : String) (r : Review)
    (hr : r ∈ GooglePlayService.getReviewsWithLibrary resp lang today now) :
    (∃ data p, resp = Except.ok (some data) ∧ p ∈ data.enum
        ∧ r = GooglePlayService.libToReview lang today now p.1 p.2)
    ∧ r.content ≠ "" ∧ 10 < r.content.length := by
  cases resp with
  | error m => simp [GooglePlayService.getReviewsWithLibrary] at hr
  | ok o =>
    cases o with
    | none => simp [GooglePlayService.getReviewsWithLibrary] at hr
    | some data =>
      unfold GooglePlayService.getReviewsWithLibrary at hr
      dsimp only at hr
      by_cases hd : data.isEmpty
      · rw [if_pos hd] at hr
        simp at hr
      · rw [if_neg hd] at hr
        rcases List.mem_filter.mp hr with ⟨hmap, hpred⟩
        rcases List.mem_map.mp hmap with ⟨p, hp, hpe⟩
        simp only [Bool.and_eq_true, bne_iff_ne, decide_eq_true_eq] at hpred
        exact ⟨⟨data, p, rfl, hp, hpe.symm⟩, hpred.1, hpred.2⟩

theorem parsePSLoop_mem (now : String) :
    ∀ (blocks : List GooglePlayService.EndpointBlock) (idx remaining : Nat) (r : Review),
      r ∈ GooglePlayService.parsePSLoop now blocks idx remaining →
      ∃ b ∈ blocks, b.content ≠ "" ∧ b.author ≠ "" ∧
        r.content = b.content ∧ r.author = b.author ∧ r.rating = some (b.starCount : Int) := by
  intro blocks
  induction blocks with
  | nil =>
    intro idx remaining r hr
    simp [GooglePlayService.parsePSLoop] at hr
  | cons b t ih =>
    intro idx remaining r hr
    simp only [GooglePlayService.parsePSLoop] at hr
    by_cases hz : remaining = 0
    · rw [if_pos hz] at hr
      simp at hr
    · rw [if_neg hz] at hr
      by_cases hk : (b.content != "" && b.author != "") = true
      · rw [if_pos hk] at hr
        simp only [Bool.and_eq_true, bne_iff_ne] at hk
        rcases List.mem_cons.mp hr with h | h
        · subst h
          exact ⟨b, List.mem_cons_self b t, hk.1, hk.2, rfl, rfl, rfl⟩
        · rcases ih (idx + 1) (remaining - 1) r h with ⟨b2, hb2, rest⟩
          exact ⟨b2, List.mem_cons_of_mem b hb2, rest⟩
      · rw [if_neg hk] at hr
        rcases ih (idx + 1) remaining r hr with ⟨b2, hb2, rest⟩
        exact ⟨b2, List.mem_cons_of_mem b hb2, rest⟩

theorem scrapeHtmlLoop_mem (lang nonce today : String) :
    ∀ (blocks : List GooglePlayService.HtmlBlock) (idx remaining : Nat) (r : Review),
      r ∈ GooglePlayService.scrapeHtmlLoop lang nonce today blocks idx remaining →
      ∃ b ∈ blocks, ∃ i, GooglePlayService.htmlBlockToReview lang nonce today i b = some r := by
  intro blocks
  induction blocks with
  | nil =>
    intro idx remaining r hr
    simp [GooglePlayService.scrapeHtmlLoop] at hr
  | cons b t ih =>
    intro idx remaining r hr
    simp only [GooglePlayService.scrapeHtmlLoop] at hr
    by_cases hz : remaining = 0
    · rw [if_pos hz] at hr
      simp at hr
    · rw [if_neg hz] at hr
      cases hb : GooglePlayService.htmlBlockToReview lang nonce today idx b with
      | some r2 =>
        rw [hb] at hr
        dsimp only at hr
        rcases List.mem_cons.mp hr with h | h
        · exact ⟨b, List.mem_cons_self b t, idx, by rw [hb, h]⟩
        · rcases ih (idx + 1) (remaining - 1) r h with ⟨b2, hb2, i, hi⟩
          exact ⟨b2, List.mem_cons_of_mem b hb2, i, hi⟩
      | none =>
        rw [hb] at hr
        dsimp only at hr
        rcases ih (idx + 1) remaining r hr with ⟨b2, hb2, i, hi⟩
        exact ⟨b2, List.mem_cons_of_mem b hb2, i, hi⟩

theorem htmlBlockToReview_content (lang nonce today : String) (i : Nat)
    (b : GooglePlayService.HtmlBlock) (r : Review)
    (h : GooglePlayService.htmlBlockToReview lang nonce today i b = some r) :
    r.content ≠ "" ∧ 10 < r.content.length := by
  unfold GooglePlayService.htmlBlockToReview at h
  dsimp only at h
  generalize hcnt : (if (b.contentSel != "") = true then b.contentSel else b.contentFromElem)
    = cnt at h
  split at h
  next hc =>
    have hrec := Option.some.inj h
    subst hrec
    simp only [Bool.and_eq_true, bne_iff_ne, decide_eq_true_eq] at hc
    exact ⟨hc.1, hc.2⟩
  next => exact absurd h (by simp)

theorem firstValidRating_le : ∀ l, GooglePlayService.firstValidRating l ≤ 5 := by
  intro l
  induction l with
  | nil => simp [GooglePlayService.firstValidRating]
  | cons o t ih =>
    cases o with
    | none => simpa [GooglePlayService.firstValidRating] using ih
    | some n =>
      rw [GooglePlayService.firstValidRating]
      by_cases h : 1 ≤ n ∧ n ≤ 5
      · rw [if_pos h]
        exact h.2
      · rw [if_neg h]
        exact ih

theorem htmlBlockToReview_rating (lang nonce today : String) (i : Nat)
    (b : GooglePlayService.HtmlBlock) (r : Review)
    (hok : htmlRatingOk b = true)
    (h : GooglePlayService.htmlBlockToReview lang nonce today i b = some r) :
    ratingOk r = true := by
  unfold GooglePlayService.htmlBlockToReview at h
  dsimp only at h
  generalize hcnt : (if (b.contentSel != "") = true then b.contentSel else b.contentFromElem)
    = cnt at h
  split at h
  next hc =>
    have hrec := Option.some.inj h
    subst hrec
    unfold htmlRatingOk at hok
    simp only [Bool.and_eq_true, decide_eq_true_eq] at hok
    obtain ⟨hok1, hok2⟩ := hok
    unfold ratingOk
    dsimp only
    rw [decide_eq_true_eq]
    cases hfd : GooglePlayService.firstDigits (b.ratingAttr.getD "").data with
    | some n =>
      rw [hfd] at hok1
      dsimp only at hok1
      rw [decide_eq_true_eq] at hok1
      dsimp only
      refine ⟨by positivity, ?_⟩
      exact_mod_cast hok1
    | none =>
      dsimp only
      by_cases hsc : 0 < b.starCount
      · rw [if_pos hsc]
        refine ⟨by positivity, ?_⟩
        exact_mod_cast hok2
      · rw [if_neg hsc]
        refine ⟨by positivity, ?_⟩
        exact_mod_cast firstValidRating_le _
  next => exact absurd h (by simp)

theorem findRating_range (arr : List GooglePlayService.JsVal) (n : Int)
    (h : GooglePlayService.findRating arr = some n) : 1 ≤ n ∧ n ≤ 5 := by
  rcases List.exists_of_findSome?_eq_some h with ⟨v, _hv, hf⟩
  cases v with
  | num m =>
    dsimp only at hf
    by_cases hm : 1 ≤ m ∧ m ≤ 5
    · rw [if_pos hm] at hf
      cases Option.some.inj hf
      exact hm
    · rw [if_neg hm] at hf
      exact absurd hf (by simp)
  | str s => exact absurd hf (by simp)
  | arr l => exact absurd hf (by simp)
  | other => exact absurd hf (by simp)

theorem parseReviewArray_eq_some (nonce today : String)
    (arr : List GooglePlayService.JsVal) (r : Review)
    (h : GooglePlayService.parseReviewArray nonce today arr = some r) :
    ∃ c a, GooglePlayService.findContent arr = some c
      ∧ GooglePlayService.findAuthor arr (GooglePlayService.findContent arr) = some a
      ∧ r.content = c ∧ r.author = a
      ∧ r.rating = some ((GooglePlayService.findRating arr).getD 0) := by
  unfold GooglePlayService.parseReviewArray at h
  dsimp only at h
  cases hc : GooglePlayService.findContent arr with
  | none =>
    rw [hc] at h
    exact absurd h (by simp)
  | some c =>
    rw [hc] at h
    cases ha : GooglePlayService.findAuthor arr (some c) with
    | none =>
      rw [ha] at h
      exact absurd h (by simp)
    | some a =>
      rw [ha] at h
      dsimp only at h
      have hrec := Option.some.inj h
      subst hrec
      exact ⟨c, a, rfl, rfl, rfl, rfl, rfl⟩

theorem parseReviewArray_ratingOk (nonce today : String)
    (arr : List GooglePlayService.JsVal) (r : Review)
    (h : GooglePlayService.parseReviewArray nonce today arr = some r) :
    ratingOk r = true := by
  rcases parseReviewArray_eq_some nonce today arr r h with ⟨c, a, _, _, _, _, hrr⟩
  unfold ratingOk
  rw [hrr]
  dsimp only
  rw [decide_eq_true_eq]
  cases hfr : GooglePlayService.findRating arr with
  | none => simp
  | some n =>
    rcases findRating_range arr n hfr with ⟨h1, h2⟩
    simp only [Option.getD_some]
    exact ⟨by omega, h2⟩

theorem parseNested_mem (nonce today : String) (l : List GooglePlayService.JsVal)
    (remaining : Nat) :
    ∀ r ∈ GooglePlayService.parseNestedReviewData nonce today l remaining,
      ∃ arr, GooglePlayService.parseReviewArray nonce today arr = some r := by
  induction l, remaining using GooglePlayService.parseNestedReviewData.induct nonce today with
  | case1 x =>
    intro r hr
    simp [GooglePlayService.parseNestedReviewData] at hr
  | case2 item rest =>
    intro r hr
    rw [GooglePlayService.parseNestedReviewData.eq_def] at hr
    simp at hr
  | case3 rest remaining hz sub hlook r0 hparse ih =>
    intro r hr
    simp only [GooglePlayService.parseNestedReviewData] at hr
    rw [if_neg hz] at hr
    try dsimp only at hr
    rw [if_pos hlook, hparse] at hr
    try dsimp only at hr
    rcases List.mem_cons.mp hr with h | h
    · exact ⟨sub, by rw [hparse, h]⟩
    · exact ih r h
  | case4 rest remaining hz sub hlook hparse ih =>
    intro r hr
    simp only [GooglePlayService.parseNestedReviewData] at hr
    rw [if_neg hz] at hr
    try dsimp only at hr
    rw [if_pos hlook, hparse] at hr
    try dsimp only at hr
    exact ih r hr
  | case5 rest remaining hz sub hlook nested ih1 ih2 =>
    intro r hr
    simp only [GooglePlayService.parseNestedReviewData] at hr
    rw [if_neg hz] at hr
    try dsimp only at hr
    rw [if_neg hlook] at hr
    try dsimp only at hr
    rcases List.mem_append.mp hr with h | h
    · exact ih1 r h
    · exact ih2 r h
  | case6 item rest remaining hz hnot ih =>
    intro r hr
    simp only [GooglePlayService.parseNestedReviewData] at hr
    rw [if_neg hz] at hr
    cases item with
    | arr sub => exact absurd rfl (hnot sub)
    | str s =>
      try dsimp only at hr
      exact ih r hr
    | num n =>
      try dsimp only at hr
      exact ih r hr
    | other =>
      try dsimp only at hr
      exact ih r hr

theorem extractJSLoop_mem (nonce today : String) :
    ∀ (js : List (Option (List GooglePlayService.JsVal))) (remaining : Nat) (r : Review),
      r ∈ GooglePlayService.extractJSLoop nonce today js remaining →
      ∃ arr, GooglePlayService.parseReviewArray nonce today arr = some r := by
  intro js
  induction js with
  | nil =>
    intro remaining r hr
    simp [GooglePlayService.extractJSLoop] at hr
  | cons m rest ih =>
    intro remaining r hr
    simp only [GooglePlayService.extractJSLoop] at hr
    by_cases hz : remaining = 0
    · rw [if_pos hz] at hr
      simp at hr
    · rw [if_neg hz] at hr
      cases m with
      | none =>
        dsimp only at hr
        exact ih remaining r hr
      | some data =>
        dsimp only at hr
        rcases List.mem_append.mp hr with h | h
        · exact parseNested_mem nonce today data remaining r h
        · exact ih _ r h

theorem scrapeReviewsFromWeb_mem (page : GooglePlayService.ScrapePage)
    (lang : String) (limit : Nat) (nonce today : String) (r : Review)
    (hr : r ∈ GooglePlayService.scrapeReviewsFromWeb (Except.ok page) lang limit nonce today) :
    (∃ arr, GooglePlayService.parseReviewArray nonce today arr = some r) ∨
    (∃ b ∈ page.htmlBlocks, ∃ i,
      GooglePlayService.htmlBlockToReview lang nonce today i b = some r) := by
  unfold GooglePlayService.scrapeReviewsFromWeb at hr
  dsimp only at hr
  split at hr
  · exact Or.inl (extractJSLoop_mem nonce today page.jsData limit r hr)
  · split at hr
    · simp at hr
    · exact Or.inr (scrapeHtmlLoop_mem lang nonce today page.htmlBlocks 0 limit r hr)

/-- C5 counterexample: the internal-endpoint parser copies the number of star
elements found into the rating without clamping, so a container with six star
elements yields a review whose rating is 6, outside the 0 to 5 range. -/
theorem endpoint_rating_out_of_range :
    (GooglePlayService.getReviewsFromPlayStore (Except.ok (some [c5Block])) 10 "0").map Review.rating
      = [some 6] ∧
    ((GooglePlayService.getReviewsFromPlayStore (Except.ok (some [c5Block])) 10 "0").all ratingOk)
      = false :=
  ⟨by decide, by decide⟩

/-- C5 (amended): every review record produced by any extraction path has an
integer rating between 0 and 5 provided the raw inputs are in range, because
the code copies the raw values without clamping: the App Store rating labels
must parse to 0..5, the library scores must lie in 0..5 after the or-default,
the endpoint star counts must be at most 5, and the HTML containers must have
rating-attribute digit runs and star counts at most 5; only the
JavaScript-data parser needs no assumption. -/
theorem ratings_in_range :
    (∀ (country : String) (entries : List AppStoreService.FeedEntry),
      (∀ e ∈ entries, feedRatingOk e = true) →
      ∀ r ∈ AppStoreService.fetchReviewsPage country (Except.ok (some entries)),
        ratingOk r = true) ∧
    (∀ (data : List GooglePlayService.LibReview) (lang today now : String),
      (∀ d ∈ data, libScoreOk d = true) →
      ∀ r ∈ GooglePlayService.getReviewsWithLibrary (Except.ok (some data)) lang today now,
        ratingOk r = true) ∧
    (∀ (blocks : List GooglePlayService.EndpointBlock) (limit : Nat) (now : String),
      (∀ b ∈ blocks, b.starCount ≤ 5) →
      ∀ r ∈ GooglePlayService.getReviewsFromPlayStore (Except.ok (some blocks)) limit now,
        ratingOk r = true) ∧
    (∀ (page : GooglePlayService.ScrapePage) (lang : String) (limit : Nat) (nonce today : String),
      (∀ b ∈ page.htmlBlocks, htmlRatingOk b = true) →
      ∀ r ∈ GooglePlayService.scrapeReviewsFromWeb (Except.ok page) lang limit nonce today,
        ratingOk r = true) ∧
    (∀ (nonce today : String) (arr : List GooglePlayService.JsVal) (r : Review),
      GooglePlayService.parseReviewArray nonce today arr = some r → ratingOk r = true) := by
  refine ⟨?_, ?_, ?_, ?_, parseReviewArray_ratingOk⟩
  · intro country entries hyp r hr
    show ratingOk r = true
    have hr2 : r ∈ AppStoreService.pageReviews country entries := hr
    unfold AppStoreService.pageReviews at hr2
    rcases List.mem_map.mp hr2 with ⟨e, hef, hre⟩
    have he : e ∈ entries := List.drop_subset 1 entries (List.mem_of_mem_filter hef)
    have hok := hyp e he
    subst hre
    unfold feedRatingOk at hok
    unfold ratingOk AppStoreService.entryToReview
    dsimp only
    cases him : e.imRating with
    | none => simp
    | some lbl =>
      rw [him] at hok
      dsimp only at hok ⊢
      cases hp : parseIntJS lbl with
      | none =>
        rw [hp] at hok
        exact absurd hok (by simp)
      | some k =>
        rw [hp] at hok
        exact hok
  · intro data lang today now hyp r hr
    rcases getReviewsWithLibrary_mem (Except.ok (some data)) lang today now r hr
      with ⟨⟨data2, p, heq, hp, hre⟩, _, _⟩
    cases heq
    have hok := hyp p.2 (snd_mem_of_mem_enum hp)
    subst hre
    unfold libScoreOk at hok
    rw [decide_eq_true_eq] at hok
    unfold ratingOk GooglePlayService.libToReview
    dsimp only
    rw [decide_eq_true_eq]
    exact hok
  · intro blocks limit now hyp r hr
    rcases parsePSLoop_mem now blocks 0 limit r hr with ⟨b, hb, _, _, _, _, hrr⟩
    have hok := hyp b hb
    unfold ratingOk
    rw [hrr]
    dsimp only
    rw [decide_eq_true_eq]
    refine ⟨by positivity, ?_⟩
    exact_mod_cast hok
  · intro page lang limit nonce today hyp r hr
    rcases scrapeReviewsFromWeb_mem page lang limit nonce today r hr with h | h
    · rcases h with ⟨arr, harr⟩
      exact parseReviewArray_ratingOk nonce today arr r harr
    · rcases h with ⟨b, hb, i, hi⟩
      exact htmlBlockToReview_rating lang nonce today i b r (hyp b hb) hi

/-- C5 witness: concrete well-formed inputs on each extraction path produce
reviews whose ratings all lie in 0 to 5. -/
theorem ratings_in_range_witness :
    ((AppStoreService.fetchReviewsPage "tr" (Except.ok (some [c2Entry, c9Entry]))).all ratingOk) = true ∧
    ((GooglePlayService.getReviewsWithLibrary (Except.ok (some [c5Lib])) "tr" "d" "n").all ratingOk) = true ∧
    ((GooglePlayService.getReviewsFromPlayStore (Except.ok (some [c5BlockOk])) 10 "0").all ratingOk) = true ∧
    ((GooglePlayService.scrapeReviewsFromWeb (Except.ok c5Page) "tr" 10 "n" "t").all ratingOk) = true ∧
    (GooglePlayService.parseReviewArray "n" "t" sampleJsArr).map ratingOk = some true := by
  refine ⟨?_, ?_, ?_, ?_, ?_⟩
  · exact List.all_eq_true.mpr
      (fun r hr => ratings_in_range.1 "tr" [c2Entry, c9Entry] (by decide) r hr)
  · exact List.all_eq_true.mpr
      (fun r hr => ratings_in_range.2.1 [c5Lib] "tr" "d" "n" (by decide) r hr)
  · exact List.all_eq_true.mpr
      (fun r hr => ratings_in_range.2.2.1 [c5BlockOk] 10 "0" (by decide) r hr)
  · exact List.all_eq_true.mpr
      (fun r hr => ratings_in_range.2.2.2.1 c5Page "tr" 10 "n" "t" (by decide) r hr)
  · obtain ⟨r, hr⟩ := Option.isSome_iff_exists.mp
      (show (GooglePlayService.parseReviewArray "n" "t" sampleJsArr).isSome = true by decide)
    rw [hr]
    have := ratings_in_range.2.2.2.2 "n" "t" sampleJsArr r hr
    simp [this]

/-- C7: the minimal shape checks of the Google Play strategies — the library
and HTML-scraping paths keep only reviews with non-empty content longer than
10 characters, the internal-endpoint parser keeps only blocks with non-empty
content and author, and the JavaScript-data parser produces a review exactly
from a found plausible content string and plausible author string. -/
theorem gp_shape_checks :
    (∀ (resp : Except String (Option (List GooglePlayService.LibReview)))
       (lang today now : String),
      ∀ r ∈ GooglePlayService.getReviewsWithLibrary resp lang today now,
        r.content ≠ "" ∧ 10 < r.content.length) ∧
    (∀ (blocks : List GooglePlayService.EndpointBlock) (limit : Nat) (now : String),
      ∀ r ∈ GooglePlayService.parsePlayStoreReviews blocks limit now,
        r.content ≠ "" ∧ r.author ≠ "") ∧
    (∀ (lang nonce today : String) (blocks : List GooglePlayService.HtmlBlock)
       (idx remaining : Nat),
      ∀ r ∈ GooglePlayService.scrapeHtmlLoop lang nonce today blocks idx remaining,
        r.content ≠ "" ∧ 10 < r.content.length) ∧
    (∀ (nonce today : String) (arr : List GooglePlayService.JsVal) (r : Review),
      GooglePlayService.parseReviewArray nonce today arr = some r →
        ∃ c a, GooglePlayService.findContent arr = some c
          ∧ GooglePlayService.findAuthor arr (GooglePlayService.findContent arr) = some a
          ∧ r.content = c ∧ r.author = a) := by
  refine ⟨?_, ?_, ?_, ?_⟩
  · intro resp lang today now r hr
    exact (getReviewsWithLibrary_mem resp lang today now r hr).2
  · intro blocks limit now r hr
    rcases parsePSLoop_mem now blocks 0 limit r hr with ⟨b, _, hbc, hba, hrc, hra, _⟩
    rw [hrc, hra]
    exact ⟨hbc, hba⟩
  · intro lang nonce today blocks idx remaining r hr
    rcases scrapeHtmlLoop_mem lang nonce today blocks idx remaining r hr with ⟨b, _, i, hi⟩
    exact htmlBlockToReview_content lang nonce today i b r hi
  · intro nonce today arr r h
    rcases parseReviewArray_eq_some nonce today arr r h with ⟨c, a, hc, ha, hrc, hra, _⟩
    exact ⟨c, a, hc, ha, hrc, hra⟩

/-- C7 witness: on concrete inputs each strategy's outputs pass its shape
check, and the JavaScript parser finds both a content and an author string. -/
theorem gp_shape_checks_witness :
    ((GooglePlayService.getReviewsWithLibrary c1LibResp "tr" "d" "n").all
      (fun r => r.content != "" && decide (10 < r.content.length))) = true ∧
    ((GooglePlayService.parsePlayStoreReviews [c5BlockOk] 10 "0").all
      (fun r => r.content != "" && r.author != "")) = true ∧
    ((GooglePlayService.scrapeHtmlLoop "tr" "n" "t" [c5Html] 0 10).all
      (fun r => r.content != "" && decide (10 < r.content.length))) = true ∧
    (GooglePlayService.findContent sampleJsArr).isSome = true ∧
    (GooglePlayService.findAuthor sampleJsArr (GooglePlayService.findContent sampleJsArr)).isSome
      = true := by
  have hlast : (GooglePlayService.findContent sampleJsArr).isSome = true ∧
      (GooglePlayService.findAuthor sampleJsArr (GooglePlayService.findContent sampleJsArr)).isSome
        = true := by
    obtain ⟨r, hr⟩ := Option.isSome_iff_exists.mp
      (show (GooglePlayService.parseReviewArray "n" "t" sampleJsArr).isSome = true by decide)
    rcases gp_shape_checks.2.2.2 "n" "t" sampleJsArr r hr with ⟨c, a, hc, ha, _, _⟩
    rw [hc] at ha
    rw [hc, ha]
    exact ⟨rfl, rfl⟩
  refine ⟨?_, ?_, ?_, hlast.1, hlast.2⟩
  · exact List.all_eq_true.mpr (fun r hr => by
      have h := gp_shape_checks.1 c1LibResp "tr" "d" "n" r hr
      simp only [Bool.and_eq_true, bne_iff_ne, decide_eq_true_eq]
      exact ⟨h.1, h.2⟩)
  · exact List.all_eq_true.mpr (fun r hr => by
      have h := gp_shape_checks.2.1 [c5BlockOk] 10 "0" r hr
      simp only [Bool.and_eq_true, bne_iff_ne]
      exact ⟨h.1, h.2⟩)
  · exact List.all_eq_true.mpr (fun r hr => by
      have h := gp_shape_checks.2.2.1 "tr" "n" "t" [c5Html] 0 10 r hr
      simp only [Bool.and_eq_true, bne_iff_ne, decide_eq_true_eq]
      exact ⟨h.1, h.2⟩)

end MobileReviews
